import Mathlib

/-!
# Verification development for the Polymarket trading bots

Shallow embedding of the decision/accounting layers of the two Rust
programs in this repository:

* `polymarket-copy-trading-bot` — copy sizing (`src/config/copy_strategy.rs`),
  the buy/sell strategy loops and purchase-basis ledger
  (`src/utils/post_order.rs`), and activity ingestion
  (`src/services/trade_monitor.rs`, `src/db.rs`);
* `polymarket-arbitrage-bot` — trade-amount derivation and the precision
  routine (`src/services/arbitrage_executor.rs`) and the opportunity
  dedup set (`src/main.rs`).

Modelling conventions:

* Rust `f64` arithmetic is embedded as exact rational (`ℚ`) arithmetic.
  All quantities involved (prices, USD amounts, token counts) are decimal
  values well within `f64`'s exact range for the magnitudes of interest,
  and every property below is about the algebraic structure of the
  computation, not about binary rounding.
* The human-readable `reasoning` string assembled by `calculate_order_size`
  is embedded as a list of `ReasonStep` tags, one per `push_str` call in
  the source; the numeric formatting inside each fragment is elided.
* Databases (MongoDB collections) are embedded as association lists, and
  the I/O loops of `post_order.rs` as step functions driven by a script of
  environment events (order-book snapshots and order responses).
* Rust's `HashSet<String>` (arbitrary iteration order) is embedded as a
  list in insertion order together with an adversarial choice function
  `pick` standing for `iter().next()`; any function that returns some
  member of a non-empty list is a legal behaviour of the Rust code.
-/

/- Core marks the rational-number operations `@[irreducible]` as an
elaborator-performance hint; restore kernel-style computability so that
concrete witnesses and counterexamples can be settled by `decide`
(soundness is unaffected: the kernel never honours reducibility hints). -/
set_option allowUnsafeReducibility true in
attribute [semireducible] Rat.mul Rat.add Rat.sub Rat.div Rat.neg Rat.inv

/-- Rust `String` / `&str` values are embedded as character lists (the
core `String` functions such as `trim` and `map` are built on byte
positions and do not evaluate inside the kernel; character lists carry
the same information and compute). String literals enter via
`String.toList`. -/
abbrev Str := List Char

namespace PolyBot

/-! ## copy_strategy.rs : data model -/

/-- `enum CopyStrategy` from `config/copy_strategy.rs`. -/
inductive CopyStrategy
  | percentage
  | fixed
  | adaptive
deriving DecidableEq, Repr

/-- `struct MultiplierTier` from `config/copy_strategy.rs`. -/
structure MultiplierTier where
  min : ℚ
  max : Option ℚ
  multiplier : ℚ
deriving DecidableEq, Repr

/-- `struct CopyStrategyConfig` from `config/copy_strategy.rs`. -/
structure CopyStrategyConfig where
  strategy : CopyStrategy
  copy_size : ℚ
  max_order_size_usd : ℚ
  min_order_size_usd : ℚ
  max_position_size_usd : Option ℚ
  max_daily_volume_usd : Option ℚ
  adaptive_min_percent : Option ℚ
  adaptive_max_percent : Option ℚ
  adaptive_threshold : Option ℚ
  tiered_multipliers : Option (List MultiplierTier)
  trade_multiplier : Option ℚ
deriving DecidableEq, Repr

/-- One entry of the `reasoning` string of `OrderSizeCalculation`; each
constructor corresponds to one `push_str`/`format!` fragment in
`calculate_order_size` (numeric formatting elided). -/
inductive ReasonStep
  | baseFromStrategy
  | multiplierApplied
  | cappedAtMax
  | positionLimitReached
  | reducedToFitPositionLimit
  | reducedToFitBalance
  | belowMinimum
deriving DecidableEq, Repr

/-- `struct OrderSizeCalculation` from `config/copy_strategy.rs`. -/
structure OrderSizeCalculation where
  trader_order_size : ℚ
  base_amount : ℚ
  final_amount : ℚ
  strategy : CopyStrategy
  capped_by_max : Bool
  reduced_by_balance : Bool
  below_minimum : Bool
  reasoning : List ReasonStep
deriving DecidableEq, Repr

/-- `fn lerp` : `t.clamp(0.0, 1.0)` then `a + (b - a) * t`. -/
def lerp (a b t : ℚ) : ℚ :=
  let t := min (max t 0) 1
  a + (b - a) * t

/-- `fn calculate_adaptive_percent` from `config/copy_strategy.rs`. -/
def calculate_adaptive_percent (config : CopyStrategyConfig)
    (trader_order_size : ℚ) : ℚ :=
  let min_pct := config.adaptive_min_percent.getD config.copy_size
  let max_pct := config.adaptive_max_percent.getD config.copy_size
  let threshold := config.adaptive_threshold.getD 500
  if trader_order_size ≥ threshold then
    let factor := min (trader_order_size / threshold - 1) 1
    lerp config.copy_size min_pct factor
  else
    let factor := trader_order_size / threshold
    lerp max_pct config.copy_size factor

/-- The `for tier in tiers` loop inside `get_trade_multiplier`: first tier
whose half-open range `[min, max)` (or `[min, ∞)`) contains the size. -/
def tierLoop (trader_order_size : ℚ) : List MultiplierTier → Option ℚ
  | [] => none
  | tier :: rest =>
    if trader_order_size ≥ tier.min then
      match tier.max with
      | none => some tier.multiplier
      | some m =>
        if trader_order_size < m then some tier.multiplier
        else tierLoop trader_order_size rest
    else tierLoop trader_order_size rest

/-- `fn get_trade_multiplier` from `config/copy_strategy.rs`. -/
def get_trade_multiplier (config : CopyStrategyConfig)
    (trader_order_size : ℚ) : ℚ :=
  match config.tiered_multipliers with
  | some tiers =>
    if tiers.isEmpty then config.trade_multiplier.getD 1
    else
      match tierLoop trader_order_size tiers with
      | some m => m
      | none =>
        match tiers.getLast? with
        | some t => t.multiplier
        | none => 1
  | none => config.trade_multiplier.getD 1

/-- The strategy `match` at the top of `calculate_order_size`: the base
amount before multipliers and caps. -/
def baseAmount (config : CopyStrategyConfig) (trader_order_size : ℚ) : ℚ :=
  match config.strategy with
  | .percentage => trader_order_size * (config.copy_size / 100)
  | .fixed => config.copy_size
  | .adaptive =>
    trader_order_size * (calculate_adaptive_percent config trader_order_size / 100)

/-- `if final_amount > config.max_order_size_usd { final_amount = max }` —
the max-order cap inside `calculate_order_size`. -/
def afterMaxCap (config : CopyStrategyConfig) (x : ℚ) : ℚ :=
  if x > config.max_order_size_usd then config.max_order_size_usd else x

/-- The `max_position_size_usd` block of `calculate_order_size`: the
updated amount together with the reasoning fragment it appends. -/
def positionStep (config : CopyStrategyConfig) (current_position_size x : ℚ) :
    ℚ × List ReasonStep :=
  match config.max_position_size_usd with
  | some max_pos =>
    if current_position_size + x > max_pos then
      let allowed := max (max_pos - current_position_size) 0
      if allowed < config.min_order_size_usd then (0, [.positionLimitReached])
      else (allowed, [.reducedToFitPositionLimit])
    else (x, [])
  | none => (x, [])

/-- Amount after the position-limit block. -/
def afterPosition (config : CopyStrategyConfig) (current_position_size x : ℚ) : ℚ :=
  (positionStep config current_position_size x).1

/-- `max_affordable = available_balance * 0.99;
if final_amount > max_affordable { final_amount = max_affordable }`. -/
def afterBalance (available_balance x : ℚ) : ℚ :=
  if x > available_balance * (99 / 100) then available_balance * (99 / 100) else x

/-- `if final_amount < config.min_order_size_usd { … final_amount = min }` —
the final minimum clamp of `calculate_order_size`. -/
def afterMin (config : CopyStrategyConfig) (x : ℚ) : ℚ :=
  if x < config.min_order_size_usd then config.min_order_size_usd else x

/-- `fn calculate_order_size` from `config/copy_strategy.rs`, translated
branch for branch; the mutable `final_amount` is threaded through
`f1 … f5` via the step functions above. -/
def calculate_order_size (config : CopyStrategyConfig) (trader_order_size : ℚ)
    (available_balance : ℚ) (current_position_size : ℚ) : OrderSizeCalculation :=
  let base_amount := baseAmount config trader_order_size
  let multiplier := get_trade_multiplier config trader_order_size
  let f1 := base_amount * multiplier
  let r1 : List ReasonStep :=
    if |multiplier - 1| > 1 / 1000000000 then [.multiplierApplied] else []
  let capped_by_max := f1 > config.max_order_size_usd
  let f2 := afterMaxCap config f1
  let r2 : List ReasonStep := if capped_by_max then [.cappedAtMax] else []
  let f3 := afterPosition config current_position_size f2
  let reduced_by_balance := f3 > available_balance * (99 / 100)
  let f4 := afterBalance available_balance f3
  let r4 : List ReasonStep :=
    if reduced_by_balance then [.reducedToFitBalance] else []
  let below_minimum := f4 < config.min_order_size_usd
  let f5 := afterMin config f4
  let r5 : List ReasonStep := if below_minimum then [.belowMinimum] else []
  { trader_order_size := trader_order_size
    base_amount := base_amount
    final_amount := f5
    strategy := config.strategy
    capped_by_max := capped_by_max
    reduced_by_balance := reduced_by_balance
    below_minimum := below_minimum
    reasoning := [.baseFromStrategy] ++ r1 ++ r2 ++
      (positionStep config current_position_size f2).2 ++ r4 ++ r5 }

/-! ## post_order.rs : error classification and the buy-strategy loop -/

/-- Substring search over character lists (Rust `str::contains`). -/
def containsSub (hay needle : List Char) : Bool :=
  match hay with
  | [] => needle.isEmpty
  | _ :: t => needle.isPrefixOf hay || containsSub t needle

/-- `fn is_insufficient_balance_or_allowance_error` from
`utils/post_order.rs`: lowercase the message and look for
`"not enough balance"` or `"allowance"`. -/
def is_insufficient_balance_or_allowance_error (message : Option Str) : Bool :=
  match message with
  | none => false
  | some msg =>
    let lower := msg.map Char.toLower
    containsSub lower "not enough balance".toList ||
      containsSub lower "allowance".toList

/-- `MIN_ORDER_SIZE_USD` from `utils/post_order.rs`. -/
def MIN_ORDER_SIZE_USD : ℚ := 1

/-- `MIN_ORDER_SIZE_TOKENS` from `utils/post_order.rs`. -/
def MIN_ORDER_SIZE_TOKENS : ℚ := 1

/-- `resp.error_msg.as_ref().map(|s| s.is_empty()).unwrap_or(true)` — the
success test applied to each posted order's response. -/
def respSuccess (error_msg : Option Str) : Bool :=
  match error_msg with
  | none => true
  | some s => s.isEmpty

/-- One iteration's worth of environment input for the buy loop of
`execute_buy_strategy`: the parsed ask levels `(price, size)` of the book
snapshot fetched at the top of the iteration, and the `error_msg` of the
order response if an order is posted in this iteration. -/
structure BuyEvent where
  asks : List (ℚ × ℚ)
  error_msg : Option Str
deriving DecidableEq, Repr

/-- `min_by` over ask levels by price — the best (lowest-price) ask. -/
def bestAsk : List (ℚ × ℚ) → Option (ℚ × ℚ)
  | [] => none
  | a :: rest =>
    match bestAsk rest with
    | none => some a
    | some b => if a.1 ≤ b.1 then some a else some b

/-- Mutable state of the buy loop of `execute_buy_strategy`, plus an
observable trace `postedOrders` of the USDC sizes of the orders actually
signed and posted. -/
structure BuyLoopState where
  remaining : ℚ
  available_balance : ℚ
  retry : ℕ
  abort_due_to_funds : Bool
  total_bought_tokens : ℚ
  postedOrders : List ℚ
deriving DecidableEq, Repr

/-- Result of one iteration body: continue looping or break out. -/
inductive BuyStepResult
  | next (st : BuyLoopState)
  | exitLoop (st : BuyLoopState)
deriving DecidableEq, Repr

/-- One iteration body of the `while remaining > 0.0 && retry < retry_limit`
loop of `execute_buy_strategy` (the caller checks the loop condition).
Every `break` of the source becomes `exitLoop`. -/
def buyStep (st : BuyLoopState) (e : BuyEvent) : BuyStepResult :=
  match bestAsk e.asks with
  | none => .exitLoop st
  | some (best_price, best_size) =>
    if st.remaining < MIN_ORDER_SIZE_USD then .exitLoop st
    else
      let max_order_size := best_size * best_price
      let order_size := min st.remaining max_order_size
      if order_size < MIN_ORDER_SIZE_USD then .exitLoop st
      else if st.available_balance < order_size then
        .exitLoop { st with abort_due_to_funds := true }
      else
        let st := { st with postedOrders := st.postedOrders ++ [order_size] }
        if respSuccess e.error_msg then
          let tokens_bought := order_size / best_price
          .next { st with
            retry := 0
            total_bought_tokens := st.total_bought_tokens + tokens_bought
            remaining := st.remaining - order_size
            available_balance := st.available_balance - order_size }
        else if is_insufficient_balance_or_allowance_error e.error_msg then
          .exitLoop { st with abort_due_to_funds := true }
        else
          .next { st with retry := st.retry + 1 }

/-- Run the buy loop against a script of environment events. The `Bool`
records whether the loop has terminated (condition false or `break`);
`false` means the script ran out while the loop was still live. -/
def buyRunP (retry_limit : ℕ) : BuyLoopState → List BuyEvent → Bool × BuyLoopState
  | st, [] => (false, st)
  | st, e :: es =>
    if st.remaining > 0 ∧ st.retry < retry_limit then
      match buyStep st e with
      | .next st' => buyRunP retry_limit st' es
      | .exitLoop st' => (true, st')
    else (true, st)

/-- Final state of the buy loop on a given script. -/
def buyRun (retry_limit : ℕ) (st : BuyLoopState) (events : List BuyEvent) :
    BuyLoopState :=
  (buyRunP retry_limit st events).2

/-- The `$set` document written by the final activity update of the buy /
sell / merge strategies (`bot`, optional `botExcutedTime`, optional
`myBoughtSize`). -/
structure ActivityUpdate where
  bot : Bool
  botExecutedTime : Option ℕ
  myBoughtSize : Option ℚ
deriving DecidableEq, Repr

/-- The final activity update of `execute_buy_strategy`
(post_order.rs lines 502–513), computed from the loop's final state. -/
def buyFinalUpdate (retry_limit : ℕ) (st : BuyLoopState) : ActivityUpdate :=
  { bot := true
    botExecutedTime :=
      if st.abort_due_to_funds then some retry_limit
      else if st.retry ≥ retry_limit then some st.retry
      else none
    myBoughtSize :=
      if st.total_bought_tokens > 0 then some st.total_bought_tokens else none }

/-- The pre-loop sizing decision of `execute_buy_strategy`: run the Copy
Sizer, and skip (update `bot := true` only, submit nothing) when
`final_amount < min_order_size_usd`. `none` = skipped; `some a` = the
loop starts with `remaining := a`. -/
def buyStrategyDecision (config : CopyStrategyConfig) (trade_usdc_size : ℚ)
    (my_balance : ℚ) (current_position_value : ℚ) : Option ℚ :=
  let order_calc :=
    calculate_order_size config trade_usdc_size my_balance current_position_value
  if order_calc.final_amount < config.min_order_size_usd then none
  else some order_calc.final_amount

/-- Initial buy-loop state set up by `execute_buy_strategy` before the loop. -/
def buyInitState (final_amount my_balance : ℚ) : BuyLoopState :=
  { remaining := final_amount
    available_balance := my_balance
    retry := 0
    abort_due_to_funds := false
    total_bought_tokens := 0
    postedOrders := [] }

/-! ## db.rs + post_order.rs : the purchase-basis ledger of the sell strategy -/

/-- `side` of an activity row. -/
inductive TradeSide
  | buy
  | sell
deriving DecidableEq, Repr

/-- The fields of a `UserActivity` document that the sell-strategy ledger
reads or writes; `id` stands for the Mongo `_id`. -/
structure ActivityRow where
  id : ℕ
  asset : Str
  conditionId : Option Str
  side : TradeSide
  bot : Bool
  my_bought_size : Option ℚ
deriving DecidableEq, Repr

/-- The Mongo filter shared by `find_all_buy_activities_for_asset` and
`update_many_activities` in `db.rs`: `asset`, `side: "BUY"`, `bot: true`,
`myBoughtSize: {$exists, $gt: 0}`, plus `conditionId` when present. -/
def buyFilter (asset : Str) (cond : Option Str) (r : ActivityRow) : Bool :=
  r.asset == asset && r.side == TradeSide.buy && r.bot == true &&
    (match r.my_bought_size with
     | some q => decide (0 < q)
     | none => false) &&
    (match cond with
     | some c => r.conditionId == some c
     | none => true)

/-- `db.update_activity(_, id, {myBoughtSize: v})` — `$set` on the row
with the given `_id`. -/
def updateMyBoughtSizeById (db : List ActivityRow) (i : ℕ) (v : ℚ) :
    List ActivityRow :=
  db.map fun r => if r.id = i then { r with my_bought_size := some v } else r

/-- The basis-ledger update at the end of `execute_sell_strategy`
(post_order.rs lines 803–835): `previous_buys` and `total_bought_tokens`
are the values fetched at the start of the function (the rows are not
re-read between fetch and update; the Executor is the single writer). -/
def sellLedgerUpdate (db : List ActivityRow) (asset : Str)
    (cond : Option Str) (total_sold_tokens : ℚ) : List ActivityRow :=
  let previous_buys := db.filter (buyFilter asset cond)
  let total_bought_tokens := (previous_buys.filterMap (·.my_bought_size)).sum
  if total_sold_tokens > 0 ∧ total_bought_tokens > 0 then
    let sell_percentage := total_sold_tokens / total_bought_tokens
    if sell_percentage ≥ 99 / 100 then
      db.map fun r =>
        if buyFilter asset cond r then { r with my_bought_size := some 0 } else r
    else
      previous_buys.foldl
        (fun acc buy =>
          updateMyBoughtSizeById acc buy.id
            (buy.my_bought_size.getD 0 * (1 - sell_percentage)))
        db
  else db

/-- `total_bought_tokens` as computed at the start of
`execute_sell_strategy`: sum of `my_bought_size` over the rows matching
the BUY filter. -/
def basisSum (db : List ActivityRow) (asset : Str) (cond : Option Str) : ℚ :=
  ((db.filter (buyFilter asset cond)).filterMap (·.my_bought_size)).sum

/-- Sum of `my_bought_size` over the rows whose `_id` lies in `ids`. -/
def sumOverIds (db : List ActivityRow) (ids : List ℕ) : ℚ :=
  ((db.filter fun r => decide (r.id ∈ ids)).map fun r => r.my_bought_size.getD 0).sum

/-! ### Concrete configurations used by witnesses and counterexamples -/

/-- Fixed-USD strategy with `copy_size` $0.50 below the $1 minimum. -/
def cfgFixedSmall : CopyStrategyConfig :=
  { strategy := .fixed
    copy_size := 1 / 2
    max_order_size_usd := 100
    min_order_size_usd := 1
    max_position_size_usd := none
    max_daily_volume_usd := none
    adaptive_min_percent := none
    adaptive_max_percent := none
    adaptive_threshold := none
    tiered_multipliers := none
    trade_multiplier := none }

/-- Fixed-USD strategy with a $10 position cap (and $9.50 already held in
the concrete scenario below, leaving an allowance under the minimum). -/
def cfgPosLimit : CopyStrategyConfig :=
  { cfgFixedSmall with copy_size := 5, max_position_size_usd := some 10 }

/-- Percentage strategy used by the monotonicity witness. -/
def cfgPct : CopyStrategyConfig :=
  { cfgFixedSmall with strategy := .percentage }

/-- Two-tier multiplier table `10-20:1.5, 20-30:2` used by the C10 witness. -/
def cfgTiered : CopyStrategyConfig :=
  { cfgFixedSmall with
    tiered_multipliers := some [⟨10, some 20, 3 / 2⟩, ⟨20, some 30, 2⟩]
    trade_multiplier := some 7 }

end PolyBot

namespace Arb

/-! ## polymarket-arbitrage-bot : services/arbitrage_executor.rs -/

/-- `TOKEN_AMOUNT` from `config/constants.rs` (fixed token quantity per side). -/
def TOKEN_AMOUNT : ℚ := 5

/-- `MIN_ORDER_SIZE_USD` from `config/constants.rs`. -/
def MIN_ORDER_SIZE_USD : ℚ := 1

/-- `PRECISION_EPSILON` from `services/arbitrage_executor.rs`. -/
def PRECISION_EPSILON : ℚ := 1 / 1000000

/-- `fn floor_to_decimals` from `services/arbitrage_executor.rs`. -/
def floor_to_decimals (value : ℚ) (decimals : ℕ) : ℚ :=
  let multiplier : ℚ := 10 ^ decimals
  ⌊value * multiplier⌋ / multiplier

/-- The `for _ in 0..10` iteration of `calculate_precise_amounts`,
with explicit fuel; fuel 0 is the post-loop fallback
`(token_amount, floor4(token_amount * price))`. -/
def preciseLoop (price : ℚ) : ℕ → ℚ → ℚ × ℚ
  | 0, token_amount => (token_amount, floor_to_decimals (token_amount * price) 4)
  | n + 1, token_amount =>
    let usdc_amount := floor_to_decimals (token_amount * price) 4
    let calculated_token_amount := usdc_amount / price
    let floored_token_amount := floor_to_decimals calculated_token_amount 2
    let difference := |calculated_token_amount - floored_token_amount|
    if difference < PRECISION_EPSILON ∧ 1 / 100 ≤ floored_token_amount then
      (floored_token_amount, usdc_amount)
    else if floored_token_amount < 1 / 100 then
      (1 / 100, floor_to_decimals (1 / 100 * price) 4)
    else preciseLoop price n floored_token_amount

/-- `fn calculate_precise_amounts` from `services/arbitrage_executor.rs`. -/
def calculate_precise_amounts (target_token_amount price : ℚ) : ℚ × ℚ :=
  let token_amount := floor_to_decimals target_token_amount 2
  let token_amount := if token_amount < 1 / 100 then 1 / 100 else token_amount
  preciseLoop price 10 token_amount

/-- `fn calculate_trade_amounts` from `services/arbitrage_executor.rs`:
note that the ask prices are multiplied **unfloored**. -/
def calculate_trade_amounts (up_price down_price : ℚ) : ℚ × ℚ × ℚ :=
  let token_amount := floor_to_decimals TOKEN_AMOUNT 2
  let up_amount_usdc := floor_to_decimals (token_amount * up_price) 4
  let down_amount_usdc := floor_to_decimals (token_amount * down_price) 4
  (token_amount, up_amount_usdc, down_amount_usdc)

/-- Rust `str::trim`: strip leading and trailing whitespace. -/
def strTrim (s : Str) : Str :=
  ((s.dropWhile Char.isWhitespace).reverse.dropWhile Char.isWhitespace).reverse

/-- The validation prefix of `fn execute_arbitrage_trade` (lines 211–239):
everything before the first order submission. `none` = the function
returns `Err(..)` and no order is submitted; `some (t, u, d)` = both
sides proceed to `execute_buy_order` with these amounts. The
`is_finite` checks of the source hold vacuously over `ℚ`. -/
def executeArbitrageCheck (up_token_id down_token_id : Str)
    (up_price down_price : ℚ) : Option (ℚ × ℚ × ℚ) :=
  if (strTrim up_token_id).isEmpty || (strTrim down_token_id).isEmpty then none
  else if up_price ≤ 0 ∨ down_price ≤ 0 then none
  else
    let (token_amount, up_amount_usdc, down_amount_usdc) :=
      calculate_trade_amounts up_price down_price
    if up_amount_usdc < MIN_ORDER_SIZE_USD ∨ down_amount_usdc < MIN_ORDER_SIZE_USD
    then none
    else some (token_amount, up_amount_usdc, down_amount_usdc)

/-! ## polymarket-arbitrage-bot : main.rs — the opportunity dedup set -/

/-- State of the dedup machinery in `discover_and_monitor`:
`recent_opportunities` is a Rust `HashSet<String>`, modelled as the list
of its elements in insertion order, and `is_executing_trade` is the arb
latch. -/
structure DedupState where
  keys : List Str
  isExecuting : Bool
deriving DecidableEq, Repr

/-- One pass through the dedup/execute block of the book-update callback
(main.rs lines 283–308). `pick` models `opps.iter().next()`: the Rust
`HashSet` iterates in arbitrary order, so any function returning some
member of a non-empty list is a legal behaviour. Returns the new state
and whether the opportunity was executed (trade task spawned). -/
def dedupStep (pick : List Str → Option Str) (st : DedupState)
    (opportunity_key : Str) (is_market_open : Bool) : DedupState × Bool :=
  if !st.isExecuting && !st.keys.contains opportunity_key && is_market_open then
    let keys1 := st.keys ++ [opportunity_key]
    let keys2 :=
      if keys1.length > 50 then
        match pick keys1 with
        | some first_key => keys1.erase first_key
        | none => keys1
      else keys1
    ({ keys := keys2, isExecuting := true }, true)
  else ({ st with isExecuting := false }, false)

/-- One legal behaviour of `HashSet::iter().next()`: return the
most-recently inserted element. -/
def pickLast (l : List Str) : Option Str :=
  l.getLast?

/-- Fifty pairwise-distinct opportunity keys (`""`, `"a"`, `"aa"`, …). -/
def fiftyKeys : List Str :=
  (List.range 50).map fun n => List.replicate n 'a' 

end Arb

namespace PolyBot

/-! ## services/trade_monitor.rs + db.rs : activity ingestion -/

/-- The fields of an incoming RTDS activity payload read by
`process_trade_activity` (remaining payload fields are copied through
verbatim and are irrelevant to the claims). -/
structure RtdsActivity where
  timestamp : Option ℤ
  transaction_hash : Option Str
deriving DecidableEq, Repr

/-- A persisted activity row as far as ingestion is concerned: the
collection key (`user_activities_{address.to_lowercase()}`) and the
stored `transactionHash`. -/
structure StoredActivity where
  collectionKey : Str
  transaction_hash : Option Str
deriving DecidableEq, Repr

/-- `fn find_activity_by_tx` from `db.rs`: look for a document with the
given `transactionHash` in the per-address collection. -/
def find_activity_by_tx (db : List StoredActivity) (user_address : Str)
    (transaction_hash : Str) : Option StoredActivity :=
  (db.filter fun r =>
    r.collectionKey == "user_activities_".toList ++ user_address.map Char.toLower &&
      r.transaction_hash == some transaction_hash).head?

/-- `fn process_trade_activity` from `services/trade_monitor.rs`:
normalize the timestamp, drop stale / hash-less / duplicate payloads,
otherwise insert a new row. `now_ms` is `Utc::now().timestamp_millis()`. -/
def process_trade_activity (now_ms : ℤ) (too_old_timestamp_hours : ℕ)
    (db : List StoredActivity) (activity : RtdsActivity) (address : Str) :
    List StoredActivity :=
  let ts := activity.timestamp.getD 0
  let ts_ms := if ts > 1000000000000 then ts else ts * 1000
  let hours_ago : ℚ := (now_ms - ts_ms : ℤ) / (1000 * 3600)
  if hours_ago > (too_old_timestamp_hours : ℚ) then db
  else
    let tx_hash := activity.transaction_hash.getD []
    if tx_hash.isEmpty then db
    else if (find_activity_by_tx db address tx_hash).isSome then db
    else
      db ++ [{ collectionKey := "user_activities_".toList ++ address.map Char.toLower
               transaction_hash := activity.transaction_hash }]

/-- Fold `process_trade_activity` over a whole stream of
`(now_ms, payload, address)` events. -/
def processStream (too_old_timestamp_hours : ℕ) (db : List StoredActivity)
    (events : List (ℤ × RtdsActivity × Str)) : List StoredActivity :=
  events.foldl
    (fun acc e => process_trade_activity e.1 too_old_timestamp_hours acc e.2.1 e.2.2)
    db

/-- A stored row is well-formed: its `transactionHash` is present and
non-empty. -/
def storedOk (r : StoredActivity) : Bool :=
  match r.transaction_hash with
  | some tx => !tx.isEmpty
  | none => false

/-- The ingestion invariant: every stored row has a non-empty hash, and
no two rows share a `(collection, transactionHash)` pair. -/
def IngestInv (db : List StoredActivity) : Prop :=
  (db.map fun r => (r.collectionKey, r.transaction_hash)).Nodup ∧
    ∀ r ∈ db, storedOk r = true

end PolyBot

namespace PolyBot

/-! ## Theorems -/

/-! ### Generic facts about the Copy Sizer pipeline -/

theorem calculate_order_size_final_amount (config : CopyStrategyConfig)
    (t b p : ℚ) :
    (calculate_order_size config t b p).final_amount =
      afterMin config (afterBalance b (afterPosition config p
        (afterMaxCap config (baseAmount config t * get_trade_multiplier config t)))) :=
  rfl

theorem min_le_afterMin (config : CopyStrategyConfig) (x : ℚ) :
    config.min_order_size_usd ≤ afterMin config x := by
  unfold afterMin
  split <;> linarith

theorem afterMin_of_lt (config : CopyStrategyConfig) {x : ℚ}
    (h : x < config.min_order_size_usd) :
    afterMin config x = config.min_order_size_usd := by
  unfold afterMin
  split <;> linarith

/-- C1 (claim, refuted): with a Fixed $0.50 copy size against a $1 minimum,
the sizer records `below_minimum` but clamps the amount up to the minimum,
so `execute_buy_strategy`'s skip test `final_amount < min_order_size_usd`
fails, the loop starts, and a $1 child order is actually posted. -/
theorem c1_claim_counterexample :
    (calculate_order_size cfgFixedSmall 10 100 0).below_minimum = true ∧
    buyStrategyDecision cfgFixedSmall 10 100 0 = some 1 ∧
    (buyRun 3 (buyInitState 1 100) [⟨[(1 / 2, 100)], none⟩]).postedOrders = [1] := by
  decide

/-- C1 (amended): whenever the Copy Sizer records `below_minimum`, it
returns `final_amount = min_order_size_usd`, so the buy strategy does not
skip the trade: its pre-loop decision is `some min_order_size_usd` and the
order loop runs. -/
theorem c1_amended_below_minimum_executes (config : CopyStrategyConfig)
    (t b p : ℚ)
    (h : (calculate_order_size config t b p).below_minimum = true) :
    (calculate_order_size config t b p).final_amount = config.min_order_size_usd ∧
    buyStrategyDecision config t b p = some config.min_order_size_usd := by
  have h' : afterBalance b (afterPosition config p
      (afterMaxCap config (baseAmount config t * get_trade_multiplier config t))) <
      config.min_order_size_usd := by
    have := h
    simp only [calculate_order_size, decide_eq_true_eq] at this
    exact this
  have hfin : (calculate_order_size config t b p).final_amount =
      config.min_order_size_usd := by
    rw [calculate_order_size_final_amount]
    exact afterMin_of_lt config h'
  refine ⟨hfin, ?_⟩
  simp only [buyStrategyDecision, hfin]
  simp

/-- Witness for `c1_amended_below_minimum_executes` at the concrete
below-minimum configuration. -/
theorem c1_amended_witness :
    (calculate_order_size cfgFixedSmall 10 100 0).below_minimum = true ∧
    (calculate_order_size cfgFixedSmall 10 100 0).final_amount =
      cfgFixedSmall.min_order_size_usd ∧
    buyStrategyDecision cfgFixedSmall 10 100 0 =
      some cfgFixedSmall.min_order_size_usd := by
  refine ⟨by decide, ?_⟩
  exact c1_amended_below_minimum_executes cfgFixedSmall 10 100 0 (by decide)

/-- C5 (claim, refuted): position limit $10 with $9.50 held and a $5 fixed
copy: the allowance $0.50 is below the $1 minimum, the sizer records
"position limit reached" — but the returned `final_amount` is the $1
minimum, not 0 (the final minimum clamp overrides the 0). -/
theorem c5_claim_counterexample :
    ReasonStep.positionLimitReached ∈
      (calculate_order_size cfgPosLimit 10 100 (19 / 2)).reasoning ∧
    (calculate_order_size cfgPosLimit 10 100 (19 / 2)).final_amount ≠ 0 ∧
    (calculate_order_size cfgPosLimit 10 100 (19 / 2)).final_amount = 1 := by
  decide

/-- C5 (amended): when `max_position_size_usd` is set, the capped amount
would exceed it, and the remaining allowance is below
`min_order_size_usd`, the sizer records "position limit reached" and sets
the running amount to 0 — but the subsequent minimum clamp makes the
*returned* `final_amount` equal to `min_order_size_usd` (with
`below_minimum` recorded), not 0. -/
theorem c5_amended_position_limit_clamped (config : CopyStrategyConfig)
    (t b p max_pos : ℚ)
    (hmax : config.max_position_size_usd = some max_pos)
    (hover : p + afterMaxCap config
      (baseAmount config t * get_trade_multiplier config t) > max_pos)
    (hallow : max (max_pos - p) 0 < config.min_order_size_usd) :
    ReasonStep.positionLimitReached ∈ (calculate_order_size config t b p).reasoning ∧
    (calculate_order_size config t b p).final_amount = config.min_order_size_usd ∧
    (calculate_order_size config t b p).below_minimum = true := by
  have hpos : positionStep config p
      (afterMaxCap config (baseAmount config t * get_trade_multiplier config t)) =
      (0, [.positionLimitReached]) := by
    unfold positionStep
    rw [hmax]
    simp only [hover, if_pos, hallow]
  have hminpos : 0 < config.min_order_size_usd :=
    lt_of_le_of_lt (le_max_right _ 0) hallow
  have hpos1 : afterPosition config p
      (afterMaxCap config (baseAmount config t * get_trade_multiplier config t)) = 0 := by
    unfold afterPosition
    rw [hpos]
  have hbal : afterBalance b (afterPosition config p
      (afterMaxCap config (baseAmount config t * get_trade_multiplier config t))) <
      config.min_order_size_usd := by
    rw [hpos1]
    unfold afterBalance
    split
    next h => linarith
    next h => linarith
  refine ⟨?_, ?_, ?_⟩
  · have hmem : ReasonStep.positionLimitReached ∈ (positionStep config p
        (afterMaxCap config (baseAmount config t * get_trade_multiplier config t))).2 := by
      rw [hpos]
      simp
    simp only [calculate_order_size, List.mem_append]
    tauto
  · rw [calculate_order_size_final_amount]
    exact afterMin_of_lt config hbal
  · show decide (afterBalance b (afterPosition config p
      (afterMaxCap config (baseAmount config t * get_trade_multiplier config t))) <
      config.min_order_size_usd) = true
    exact decide_eq_true hbal

/-- Witness for `c5_amended_position_limit_clamped` at the concrete
position-limited configuration. -/
theorem c5_amended_witness :
    cfgPosLimit.max_position_size_usd = some 10 ∧
    (19 / 2 : ℚ) + afterMaxCap cfgPosLimit
      (baseAmount cfgPosLimit 10 * get_trade_multiplier cfgPosLimit 10) > 10 ∧
    max ((10 : ℚ) - 19 / 2) 0 < cfgPosLimit.min_order_size_usd ∧
    (calculate_order_size cfgPosLimit 10 100 (19 / 2)).final_amount =
      cfgPosLimit.min_order_size_usd := by
  refine ⟨by decide, by decide, by decide, ?_⟩
  exact (c5_amended_position_limit_clamped cfgPosLimit 10 100 (19 / 2) 10
    (by decide) (by decide) (by decide)).2.1

end PolyBot

namespace PolyBot

/-! ### Monotonicity of the Copy Sizer in `copy_size` -/

theorem lerp_mono_left (m f : ℚ) {a b : ℚ} (h : a ≤ b) :
    lerp a m f ≤ lerp b m f := by
  show a + (m - a) * (min (max f 0) 1) ≤ b + (m - b) * (min (max f 0) 1)
  have h1 : 0 ≤ min (max f 0) 1 := le_min (le_max_right f 0) zero_le_one
  have h2 : min (max f 0) 1 ≤ 1 := min_le_right _ _
  nlinarith [mul_nonneg (sub_nonneg.mpr h) (sub_nonneg.mpr h2)]

theorem lerp_mono_right (m f : ℚ) {a b : ℚ} (h : a ≤ b) :
    lerp m a f ≤ lerp m b f := by
  show m + (a - m) * (min (max f 0) 1) ≤ m + (b - m) * (min (max f 0) 1)
  have h1 : 0 ≤ min (max f 0) 1 := le_min (le_max_right f 0) zero_le_one
  nlinarith [mul_nonneg (sub_nonneg.mpr h) h1]

theorem adaptive_percent_mono (cfg : CopyStrategyConfig) (t : ℚ) {c1 c2 : ℚ}
    (h : c1 ≤ c2) :
    calculate_adaptive_percent { cfg with copy_size := c1 } t ≤
      calculate_adaptive_percent { cfg with copy_size := c2 } t := by
  unfold calculate_adaptive_percent
  rcases cfg with ⟨strat, cs, maxo, mino, maxp, maxd, amin, amax, athr, tiers, tm⟩
  simp only
  split
  · rcases amin with _ | m
    · simp only [Option.getD_none]
      have := lerp_mono_left c1 (min (t / athr.getD 500 - 1) 1) h
      have := lerp_mono_right c2 (min (t / athr.getD 500 - 1) 1) h
      calc lerp c1 c1 (min (t / athr.getD 500 - 1) 1)
          ≤ lerp c1 c2 (min (t / athr.getD 500 - 1) 1) :=
            lerp_mono_right c1 (min (t / athr.getD 500 - 1) 1) h
        _ ≤ lerp c2 c2 (min (t / athr.getD 500 - 1) 1) :=
            lerp_mono_left c2 (min (t / athr.getD 500 - 1) 1) h
    · simp only [Option.getD_some]
      exact lerp_mono_left m (min (t / athr.getD 500 - 1) 1) h
  · rcases amax with _ | m
    · simp only [Option.getD_none]
      calc lerp c1 c1 (t / athr.getD 500)
          ≤ lerp c1 c2 (t / athr.getD 500) := lerp_mono_right c1 _ h
        _ ≤ lerp c2 c2 (t / athr.getD 500) := lerp_mono_left c2 _ h
    · simp only [Option.getD_some]
      exact lerp_mono_right m (t / athr.getD 500) h

theorem baseAmount_mono (cfg : CopyStrategyConfig) (t : ℚ) (ht : 0 ≤ t)
    {c1 c2 : ℚ} (h : c1 ≤ c2) :
    baseAmount { cfg with copy_size := c1 } t ≤
      baseAmount { cfg with copy_size := c2 } t := by
  have hpct := adaptive_percent_mono cfg t h
  unfold baseAmount
  rcases hs : cfg.strategy with _ | _ | _
  all_goals rcases cfg with ⟨strat, cs, maxo, mino, maxp, maxd, amin, amax, athr, tiers, tm⟩
  all_goals simp only at hs
  all_goals subst hs
  · have : c1 / 100 ≤ c2 / 100 := by linarith
    exact mul_le_mul_of_nonneg_left this ht
  · exact h
  · have : calculate_adaptive_percent
        { strategy := CopyStrategy.adaptive, copy_size := c1, max_order_size_usd := maxo,
          min_order_size_usd := mino, max_position_size_usd := maxp,
          max_daily_volume_usd := maxd, adaptive_min_percent := amin,
          adaptive_max_percent := amax, adaptive_threshold := athr,
          tiered_multipliers := tiers, trade_multiplier := tm } t / 100 ≤
        calculate_adaptive_percent
        { strategy := CopyStrategy.adaptive, copy_size := c2, max_order_size_usd := maxo,
          min_order_size_usd := mino, max_position_size_usd := maxp,
          max_daily_volume_usd := maxd, adaptive_min_percent := amin,
          adaptive_max_percent := amax, adaptive_threshold := athr,
          tiered_multipliers := tiers, trade_multiplier := tm } t / 100 := by
      have := hpct
      simp only at this ⊢
      linarith
    exact mul_le_mul_of_nonneg_left this ht

theorem afterMaxCap_mono (cfg : CopyStrategyConfig) {x y : ℚ} (h : x ≤ y) :
    afterMaxCap cfg x ≤ afterMaxCap cfg y := by
  unfold afterMaxCap
  split
  next hx =>
    split
    next hy => linarith
    next hy => linarith
  next hx =>
    split
    next hy => linarith
    next hy => linarith

theorem afterBalance_mono (b : ℚ) {x y : ℚ} (h : x ≤ y) :
    afterBalance b x ≤ afterBalance b y := by
  unfold afterBalance
  split
  next hx =>
    split
    next hy => linarith
    next hy => linarith
  next hx =>
    split
    next hy => linarith
    next hy => linarith

theorem afterMin_mono (cfg : CopyStrategyConfig) {x y : ℚ} (h : x ≤ y) :
    afterMin cfg x ≤ afterMin cfg y := by
  unfold afterMin
  split
  next hx =>
    split
    next hy => linarith
    next hy => linarith
  next hx =>
    split
    next hy => linarith
    next hy => linarith

/-- The cap-and-floor pipeline after the multiplier is monotone, including
the non-monotone position-limit middle step (whose dip to 0 is always
repaired by the final minimum clamp). -/
theorem pipeline_mono (cfg : CopyStrategyConfig) (b p : ℚ) {x y : ℚ} (h : x ≤ y) :
    afterMin cfg (afterBalance b (afterPosition cfg p x)) ≤
      afterMin cfg (afterBalance b (afterPosition cfg p y)) := by
  unfold afterPosition positionStep
  rcases hmp : cfg.max_position_size_usd with _ | max_pos
  · exact afterMin_mono cfg (afterBalance_mono b h)
  · dsimp only
    by_cases hx : p + x > max_pos
    · -- x already over the limit: so is y; both sides take the same branch
      have hy : p + y > max_pos := by linarith
      rw [if_pos hx, if_pos hy]
    · rw [if_neg hx]
      by_cases hy : p + y > max_pos
      · rw [if_pos hy]
        by_cases hallow : max (max_pos - p) 0 < cfg.min_order_size_usd
        · -- allowance below minimum: y side becomes 0, and both sides are
          -- below the minimum, so the final clamp equalizes them
          rw [if_pos hallow]
          dsimp only
          have hminpos : (0 : ℚ) < cfg.min_order_size_usd :=
            lt_of_le_of_lt (le_max_right (max_pos - p) 0) hallow
          have hxmin : x < cfg.min_order_size_usd := by
            have h1 : x ≤ max_pos - p := by linarith
            have h2 : max_pos - p ≤ max (max_pos - p) 0 := le_max_left _ _
            linarith
          have hbx : afterBalance b x < cfg.min_order_size_usd := by
            unfold afterBalance
            split
            next hb => linarith
            next hb => linarith
          have hby : afterBalance b (0 : ℚ) < cfg.min_order_size_usd := by
            unfold afterBalance
            split
            next hb => linarith
            next hb => linarith
          rw [afterMin_of_lt cfg hbx, afterMin_of_lt cfg hby]
        · -- allowance still ≥ minimum: x ≤ allowed, plain monotone chain
          rw [if_neg hallow]
          dsimp only
          have hxle : x ≤ max (max_pos - p) 0 := by
            have h1 : x ≤ max_pos - p := by linarith
            exact le_trans h1 (le_max_left _ _)
          exact afterMin_mono cfg (afterBalance_mono b hxle)
      · -- both fit: plain monotone chain
        rw [if_neg hy]
        exact afterMin_mono cfg (afterBalance_mono b h)

/-- C6 (confirmed): fixing the whole configuration except `copy_size`, and
for a non-negative leader trade size and a non-negative effective
multiplier, the Copy Sizer's `final_amount` is monotone in `copy_size`
(the `max_order_size_usd` cap and all later steps preserve order). -/
theorem c6_copy_sizer_monotone (cfg : CopyStrategyConfig) (t b p : ℚ)
    (c1 c2 : ℚ) (hc : c1 ≤ c2) (ht : 0 ≤ t)
    (hm : 0 ≤ get_trade_multiplier cfg t) :
    (calculate_order_size { cfg with copy_size := c1 } t b p).final_amount ≤
      (calculate_order_size { cfg with copy_size := c2 } t b p).final_amount := by
  rw [calculate_order_size_final_amount, calculate_order_size_final_amount]
  have hmult1 : get_trade_multiplier { cfg with copy_size := c1 } t =
      get_trade_multiplier cfg t := rfl
  have hmult2 : get_trade_multiplier { cfg with copy_size := c2 } t =
      get_trade_multiplier cfg t := rfl
  rw [hmult1, hmult2]
  have hbase := baseAmount_mono cfg t ht hc
  have hf1 : baseAmount { cfg with copy_size := c1 } t * get_trade_multiplier cfg t ≤
      baseAmount { cfg with copy_size := c2 } t * get_trade_multiplier cfg t :=
    mul_le_mul_of_nonneg_right hbase hm
  have hcap : afterMaxCap { cfg with copy_size := c1 }
      (baseAmount { cfg with copy_size := c1 } t * get_trade_multiplier cfg t) ≤
      afterMaxCap { cfg with copy_size := c2 }
      (baseAmount { cfg with copy_size := c2 } t * get_trade_multiplier cfg t) := by
    have h1 : afterMaxCap { cfg with copy_size := c1 }
        (baseAmount { cfg with copy_size := c1 } t * get_trade_multiplier cfg t) =
        afterMaxCap cfg
        (baseAmount { cfg with copy_size := c1 } t * get_trade_multiplier cfg t) := rfl
    have h2 : afterMaxCap { cfg with copy_size := c2 }
        (baseAmount { cfg with copy_size := c2 } t * get_trade_multiplier cfg t) =
        afterMaxCap cfg
        (baseAmount { cfg with copy_size := c2 } t * get_trade_multiplier cfg t) := rfl
    rw [h1, h2]
    exact afterMaxCap_mono cfg hf1
  have hpipe : afterMin cfg (afterBalance b (afterPosition cfg p
      (afterMaxCap { cfg with copy_size := c1 }
        (baseAmount { cfg with copy_size := c1 } t * get_trade_multiplier cfg t)))) ≤
      afterMin cfg (afterBalance b (afterPosition cfg p
      (afterMaxCap { cfg with copy_size := c2 }
        (baseAmount { cfg with copy_size := c2 } t * get_trade_multiplier cfg t)))) :=
    pipeline_mono cfg b p hcap
  exact hpipe

/-- Witness for `c6_copy_sizer_monotone`: percentage strategy, 2% vs 3%,
$200 leader trade, $1000 balance, no position. -/
theorem c6_witness :
    (2 : ℚ) ≤ 3 ∧ (0 : ℚ) ≤ 200 ∧ 0 ≤ get_trade_multiplier cfgPct 200 ∧
    (calculate_order_size { cfgPct with copy_size := 2 } 200 1000 0).final_amount ≤
      (calculate_order_size { cfgPct with copy_size := 3 } 200 1000 0).final_amount :=
  ⟨by decide, by decide, by decide,
    c6_copy_sizer_monotone cfgPct 200 1000 0 2 3 (by decide) (by decide) (by decide)⟩

end PolyBot

namespace PolyBot

/-! ### Tiered-multiplier fallback (C10) -/

theorem tierLoop_eq_none (size : ℚ) (tiers : List MultiplierTier)
    (hnomatch : ∀ tier ∈ tiers,
      size < tier.min ∨ ∃ m, tier.max = some m ∧ m ≤ size) :
    tierLoop size tiers = none := by
  induction tiers with
  | nil => rfl
  | cons tier rest ih =>
    have htier := hnomatch tier (List.mem_cons_self tier rest)
    have hrest : ∀ t ∈ rest, size < t.min ∨ ∃ m, t.max = some m ∧ m ≤ size :=
      fun t ht => hnomatch t (List.mem_cons_of_mem tier ht)
    unfold tierLoop
    rcases htier with hlt | ⟨m, hmax, hle⟩
    · rw [if_neg (by exact not_le.mpr hlt)]
      exact ih hrest
    · rw [hmax]
      by_cases hmin : size ≥ tier.min
      · rw [if_pos hmin]
        dsimp only
        rw [if_neg (by exact not_lt.mpr hle)]
        exact ih hrest
      · rw [if_neg hmin]
        exact ih hrest

/-- C10 (confirmed): when tiered multipliers are configured and non-empty
but the trader's order size falls inside no tier, `get_trade_multiplier`
returns the last tier's multiplier — independently of the flat
`trade_multiplier` and without defaulting to 1. -/
theorem c10_tier_fallback (cfg : CopyStrategyConfig) (size : ℚ)
    (tiers : List MultiplierTier) (tlast : MultiplierTier)
    (htiers : cfg.tiered_multipliers = some tiers)
    (hlast : tiers.getLast? = some tlast)
    (hnomatch : ∀ tier ∈ tiers,
      size < tier.min ∨ ∃ m, tier.max = some m ∧ m ≤ size) :
    get_trade_multiplier cfg size = tlast.multiplier := by
  have hne : tiers.isEmpty = false := by
    cases tiers with
    | nil => simp at hlast
    | cons a l => rfl
  simp only [get_trade_multiplier, htiers, hne, Bool.false_eq_true, if_false,
    tierLoop_eq_none size tiers hnomatch, hlast]

/-- Witness for `c10_tier_fallback`: size $5 lies below the first tier of
`10-20:1.5, 20-30:2`; the result is the last tier's multiplier 2, not the
flat multiplier 7 and not 1. -/
theorem c10_witness :
    cfgTiered.tiered_multipliers = some [⟨10, some 20, 3 / 2⟩, ⟨20, some 30, 2⟩] ∧
    get_trade_multiplier cfgTiered 5 = 2 ∧
    cfgTiered.trade_multiplier = some 7 := by
  refine ⟨by decide, ?_, by decide⟩
  exact c10_tier_fallback cfgTiered 5 [⟨10, some 20, 3 / 2⟩, ⟨20, some 30, 2⟩]
    ⟨20, some 30, 2⟩ (by decide) (by decide)
    (by
      intro tier htier
      simp only [List.mem_cons, List.mem_singleton] at htier
      rcases htier with h | h | h
      · subst h
        left
        decide
      · subst h
        left
        decide
      · simp at h)

end PolyBot

namespace Arb

/-! ### Arbitrage trade amounts (C3) -/

/-- C3 (claim, refuted): at ask prices 0.212345 / 0.5 the executor derives
the UP amount `floor4(5 × 0.212345) = 1.0617` — the ask is *not* floored
to 4 decimals before the multiplication, which would give
`floor4(5 × 0.2123) = 1.0615`. -/
theorem c3_claim_counterexample :
    executeArbitrageCheck ['u'] ['d'] (212345 / 1000000) (1 / 2) =
      some (5, 10617 / 10000, 5 / 2) ∧
    floor_to_decimals (TOKEN_AMOUNT *
      floor_to_decimals (212345 / 1000000) 4) 4 = 10615 / 10000 ∧
    ((10617 : ℚ) / 10000) ≠ 10615 / 10000 := by
  decide

/-- C3 (amended): for positive ask prices and non-empty token ids, each
side's amount is `floor4(floor2(TOKEN_AMOUNT) × ask)` with the ask price
*unfloored* (`= floor4(5 × ask)` for the default `TOKEN_AMOUNT = 5`), and
`execute_arbitrage_trade` returns an error — submitting no orders —
unless both derived amounts are at least `MIN_ORDER_SIZE_USD` ($1). -/
theorem c3_amended_trade_amounts (u d : Str)
    (hu : (strTrim u).isEmpty = false) (hd : (strTrim d).isEmpty = false)
    (up down : ℚ) (h1 : 0 < up) (h2 : 0 < down) :
    calculate_trade_amounts up down =
      (TOKEN_AMOUNT, floor_to_decimals (TOKEN_AMOUNT * up) 4,
        floor_to_decimals (TOKEN_AMOUNT * down) 4) ∧
    executeArbitrageCheck u d up down =
      (if floor_to_decimals (TOKEN_AMOUNT * up) 4 < MIN_ORDER_SIZE_USD ∨
          floor_to_decimals (TOKEN_AMOUNT * down) 4 < MIN_ORDER_SIZE_USD
       then none
       else some (TOKEN_AMOUNT, floor_to_decimals (TOKEN_AMOUNT * up) 4,
         floor_to_decimals (TOKEN_AMOUNT * down) 4)) := by
  have hTA : floor_to_decimals TOKEN_AMOUNT 2 = TOKEN_AMOUNT := by decide
  have hcalc : calculate_trade_amounts up down =
      (TOKEN_AMOUNT, floor_to_decimals (TOKEN_AMOUNT * up) 4,
        floor_to_decimals (TOKEN_AMOUNT * down) 4) := by
    unfold calculate_trade_amounts
    rw [hTA]
  refine ⟨hcalc, ?_⟩
  unfold executeArbitrageCheck
  simp only [hu, hd, Bool.or_self, Bool.false_eq_true, if_false]
  rw [if_neg (by push_neg; exact ⟨h1, h2⟩)]
  rw [hcalc]

/-- Witness for `c3_amended_trade_amounts` at asks 0.47 / 0.48:
amounts $2.35 and $2.40, both above the minimum, so the pair executes. -/
theorem c3_amended_witness :
    (strTrim ['u']).isEmpty = false ∧ (strTrim ['d']).isEmpty = false ∧
    (0 : ℚ) < 47 / 100 ∧ (0 : ℚ) < 48 / 100 ∧
    executeArbitrageCheck ['u'] ['d'] (47 / 100) (48 / 100) =
      (if floor_to_decimals (TOKEN_AMOUNT * (47 / 100)) 4 < MIN_ORDER_SIZE_USD ∨
          floor_to_decimals (TOKEN_AMOUNT * (48 / 100)) 4 < MIN_ORDER_SIZE_USD
       then none
       else some (TOKEN_AMOUNT, floor_to_decimals (TOKEN_AMOUNT * (47 / 100)) 4,
         floor_to_decimals (TOKEN_AMOUNT * (48 / 100)) 4)) := by
  refine ⟨by decide, by decide, by decide, by decide, ?_⟩
  exact (c3_amended_trade_amounts ['u'] ['d'] (by decide) (by decide)
    (47 / 100) (48 / 100) (by decide) (by decide)).2

end Arb

namespace Arb

/-! ### The precision routine (C8) -/

theorem floor_to_decimals_idem (v : ℚ) (d : ℕ) :
    floor_to_decimals (floor_to_decimals v d) d = floor_to_decimals v d := by
  show ((⌊((⌊v * 10 ^ d⌋ : ℚ) / 10 ^ d) * 10 ^ d⌋ : ℚ) / 10 ^ d) =
    (⌊v * 10 ^ d⌋ : ℚ) / 10 ^ d
  have hm : ((10 : ℚ) ^ d) ≠ 0 := by positivity
  rw [div_mul_cancel₀ _ hm, Int.floor_intCast]

theorem floor_to_decimals_hundredth :
    floor_to_decimals (1 / 100 : ℚ) 2 = 1 / 100 := by
  decide

/-- Invariant of the `calculate_precise_amounts` iteration: on any input
that is a fixed point of `floor2` and at least `0.01`, every exit path
returns a `floor2` fixed point at least `0.01`, and either the returned
USDC amount is `floor4(tokens × price)` (fallback and minimum-clamp
exits) or the convergence test held on exit. -/
theorem preciseLoop_spec (price : ℚ) :
    ∀ (n : ℕ) (t : ℚ), floor_to_decimals t 2 = t → 1 / 100 ≤ t →
      floor_to_decimals (preciseLoop price n t).1 2 = (preciseLoop price n t).1 ∧
      1 / 100 ≤ (preciseLoop price n t).1 ∧
      ((preciseLoop price n t).2 =
          floor_to_decimals ((preciseLoop price n t).1 * price) 4 ∨
        |(preciseLoop price n t).2 / price -
            floor_to_decimals ((preciseLoop price n t).2 / price) 2| <
          PRECISION_EPSILON) := by
  intro n
  induction n with
  | zero =>
    intro t hfix hge
    exact ⟨hfix, hge, Or.inl rfl⟩
  | succ n ih =>
    intro t hfix hge
    unfold preciseLoop
    dsimp only
    split
    next hconv =>
      -- convergence exit
      refine ⟨floor_to_decimals_idem _ 2, hconv.2, Or.inr ?_⟩
      exact hconv.1
    next hconv =>
      split
      next hsmall =>
        -- minimum clamp exit
        exact ⟨floor_to_decimals_hundredth, le_refl _, Or.inl rfl⟩
      next hsmall =>
        -- continue iterating on the floored value
        exact ih _ (floor_to_decimals_idem _ 2) (not_lt.mp hsmall)

/-- C8 (claim, refuted): at target 5 tokens and price 0.123456 the
iteration never converges; after 10 rounds the routine falls back to
`(4.90, 0.6049)`, and `0.6049 / 0.123456 ≈ 4.8997` is about `0.0097`
away from its 2-decimal floor — far beyond the claimed `1e-6`. -/
theorem c8_claim_counterexample :
    ¬ ((calculate_precise_amounts 5 (123456 / 1000000)).1 =
        floor_to_decimals (calculate_precise_amounts 5 (123456 / 1000000)).1 2 ∧
      (calculate_precise_amounts 5 (123456 / 1000000)).2 =
        floor_to_decimals
          ((calculate_precise_amounts 5 (123456 / 1000000)).1 * (123456 / 1000000)) 4 ∧
      |(calculate_precise_amounts 5 (123456 / 1000000)).2 / (123456 / 1000000) -
          floor_to_decimals
            ((calculate_precise_amounts 5 (123456 / 1000000)).2 / (123456 / 1000000)) 2| <
        1 / 1000000) := by
  decide

/-- C8 (amended): for every positive price and positive target token
amount, `calculate_precise_amounts` returns `(tokens, usdc)` with
`tokens` a fixed point of the 2-decimal floor and `tokens ≥ 0.01`, and
*either* `usdc = floor4(tokens × price)` (the fallback and minimum-clamp
exits) *or* `usdc / price` within `PRECISION_EPSILON = 1e-6` of its
2-decimal floor (the converged exit). The two precision rules are
guaranteed simultaneously only when the iteration converges within its
10 rounds; the counterexample shows the fallback exit violating the
`1e-6` bound. -/
theorem c8_amended_precision (target_token_amount price : ℚ)
    (hp : 0 < price) (ht : 0 < target_token_amount) :
    floor_to_decimals (calculate_precise_amounts target_token_amount price).1 2 =
      (calculate_precise_amounts target_token_amount price).1 ∧
    1 / 100 ≤ (calculate_precise_amounts target_token_amount price).1 ∧
    ((calculate_precise_amounts target_token_amount price).2 =
        floor_to_decimals
          ((calculate_precise_amounts target_token_amount price).1 * price) 4 ∨
      |(calculate_precise_amounts target_token_amount price).2 / price -
          floor_to_decimals
            ((calculate_precise_amounts target_token_amount price).2 / price) 2| <
        PRECISION_EPSILON) := by
  unfold calculate_precise_amounts
  dsimp only
  split
  next hsmall =>
    exact preciseLoop_spec price 10 (1 / 100) floor_to_decimals_hundredth (le_refl _)
  next hsmall =>
    exact preciseLoop_spec price 10 _ (floor_to_decimals_idem _ 2) (not_lt.mp hsmall)

/-- Witness for `c8_amended_precision` at target 5, price 0.47. -/
theorem c8_amended_witness :
    (0 : ℚ) < 47 / 100 ∧ (0 : ℚ) < 5 ∧
    (floor_to_decimals (calculate_precise_amounts 5 (47 / 100)).1 2 =
        (calculate_precise_amounts 5 (47 / 100)).1 ∧
      1 / 100 ≤ (calculate_precise_amounts 5 (47 / 100)).1 ∧
      ((calculate_precise_amounts 5 (47 / 100)).2 =
          floor_to_decimals ((calculate_precise_amounts 5 (47 / 100)).1 * (47 / 100)) 4 ∨
        |(calculate_precise_amounts 5 (47 / 100)).2 / (47 / 100) -
            floor_to_decimals
              ((calculate_precise_amounts 5 (47 / 100)).2 / (47 / 100)) 2| <
          PRECISION_EPSILON)) :=
  ⟨by decide, by decide, c8_amended_precision 5 (47 / 100) (by decide) (by decide)⟩

end Arb

namespace Arb

/-! ### The opportunity dedup set (C7) -/

/-- C7 (amended): for any legal `HashSet` iteration behaviour `pick`
(returns some member of a non-empty list), a dedup step keeps the set at
most 50 keys, never executes an opportunity whose key is already in the
set, and on overflow evicts *some member* of the set — not necessarily
the oldest-inserted one. -/
theorem c7_amended_dedup_bound (pick : List Str → Option Str)
    (st : DedupState) (key : Str) (is_market_open : Bool)
    (hpick_mem : ∀ l k, pick l = some k → k ∈ l)
    (hpick_some : ∀ l, l ≠ [] → (pick l).isSome = true)
    (hlen : st.keys.length ≤ 50) :
    (dedupStep pick st key is_market_open).1.keys.length ≤ 50 ∧
    ((dedupStep pick st key is_market_open).2 = true → key ∉ st.keys) := by
  unfold dedupStep
  split
  next hguard =>
    -- execute path: key is fresh (from the guard), insert and maybe evict
    simp only [Bool.and_eq_true, Bool.not_eq_true'] at hguard
    have hfresh : key ∉ st.keys := by
      intro hmem
      have : st.keys.contains key = true := List.elem_eq_true_of_mem hmem
      rw [hguard.1.2] at this
      exact Bool.false_ne_true this
    constructor
    · dsimp only
      split
      next hover =>
        -- overflow: the appended list is non-empty, pick returns a member,
        -- and erasing a member shrinks the list by one
        have hne : st.keys ++ [key] ≠ [] := by simp
        have hsome := hpick_some (st.keys ++ [key]) hne
        rcases hk : pick (st.keys ++ [key]) with _ | k
        · rw [hk] at hsome
          simp at hsome
        · dsimp only
          have hmem := hpick_mem (st.keys ++ [key]) k hk
          have herase : ((st.keys ++ [key]).erase k).length =
              (st.keys ++ [key]).length - 1 := List.length_erase_of_mem hmem
          rw [herase]
          simp only [List.length_append, List.length_singleton]
          omega
      next hover =>
        simp only [List.length_append, List.length_singleton] at hover ⊢
        omega
    · intro _
      exact hfresh
  next hguard =>
    exact ⟨by simpa using hlen, by simp⟩

/-- Witness for `c7_amended_dedup_bound`: a full 50-key set, `pickLast`
as the iteration order, and a fresh key. -/
theorem c7_amended_witness :
    fiftyKeys.length ≤ 50 ∧
    (dedupStep pickLast ⟨fiftyKeys, false⟩ "new".toList true).1.keys.length ≤ 50 ∧
    ((dedupStep pickLast ⟨fiftyKeys, false⟩ "new".toList true).2 = true →
      "new".toList ∉ fiftyKeys) := by
  refine ⟨by decide, ?_⟩
  exact c7_amended_dedup_bound pickLast ⟨fiftyKeys, false⟩ "new".toList true
    (fun l k hk => by
      rcases List.mem_getLast?_eq_getLast (Option.mem_def.mpr hk) with ⟨h, rfl⟩
      exact List.getLast_mem h)
    (fun l hl => by
      show (l.getLast?).isSome = true
      rw [List.getLast?_eq_getLast_of_ne_nil hl]
      rfl)
    (by decide)

/-- C7 (claim, refuted): `recent_opportunities` is a `HashSet`, whose
iteration order is arbitrary; with the legal iteration behaviour
`pickLast`, overflowing a full 50-key set evicts the *newest* key: the
oldest key (`[]`, the first of `fiftyKeys`) survives and the freshly
inserted key is gone, contradicting FIFO (oldest-evicted) behaviour. -/
theorem c7_claim_counterexample :
    pickLast (fiftyKeys ++ ["new".toList]) = some "new".toList ∧
    "new".toList ∈ fiftyKeys ++ ["new".toList] ∧
    (dedupStep pickLast ⟨fiftyKeys, false⟩ "new".toList true).1.keys ≠
      fiftyKeys.tail ++ ["new".toList] ∧
    ([] : Str) ∈ (dedupStep pickLast ⟨fiftyKeys, false⟩ "new".toList true).1.keys ∧
    "new".toList ∉ (dedupStep pickLast ⟨fiftyKeys, false⟩ "new".toList true).1.keys := by
  decide

end Arb

namespace PolyBot

/-! ### Fatal fund/allowance errors abort the strategy loop (C4) -/

theorem buyRunP_cons (retry_limit : ℕ) (st : BuyLoopState) (e : BuyEvent)
    (es : List BuyEvent) :
    buyRunP retry_limit st (e :: es) =
      if st.remaining > 0 ∧ st.retry < retry_limit then
        match buyStep st e with
        | .next st' => buyRunP retry_limit st' es
        | .exitLoop st' => (true, st')
      else (true, st) := rfl

theorem buyRunP_append (retry_limit : ℕ) (st : BuyLoopState)
    (a b : List BuyEvent) :
    buyRunP retry_limit st (a ++ b) =
      if (buyRunP retry_limit st a).1 then buyRunP retry_limit st a
      else buyRunP retry_limit (buyRunP retry_limit st a).2 b := by
  induction a generalizing st with
  | nil =>
    simp [buyRunP]
  | cons e es ih =>
    simp only [List.cons_append]
    by_cases hcond : st.remaining > 0 ∧ st.retry < retry_limit
    · rcases hstep : buyStep st e with st' | st'
      · have hl : buyRunP retry_limit st (e :: (es ++ b)) =
            buyRunP retry_limit st' (es ++ b) := by
          rw [buyRunP_cons, if_pos hcond, hstep]
        have hr : buyRunP retry_limit st (e :: es) = buyRunP retry_limit st' es := by
          rw [buyRunP_cons, if_pos hcond, hstep]
        rw [hl, hr]
        exact ih st'
      · have hl : buyRunP retry_limit st (e :: (es ++ b)) = (true, st') := by
          rw [buyRunP_cons, if_pos hcond, hstep]
        have hr : buyRunP retry_limit st (e :: es) = (true, st') := by
          rw [buyRunP_cons, if_pos hcond, hstep]
        rw [hl, hr]
        simp
    · have hl : buyRunP retry_limit st (e :: (es ++ b)) = (true, st) := by
        rw [buyRunP_cons, if_neg hcond]
      have hr : buyRunP retry_limit st (e :: es) = (true, st) := by
        rw [buyRunP_cons, if_neg hcond]
      rw [hl, hr]
      simp

/-- C4 (confirmed): if a child order posted in event `e` comes back with an
`error_msg` classified as a balance/allowance error, the buy loop stops at
`e`: the rest of the script `s2` is never consumed (no further child order
and no further retry), `abort_due_to_funds` is set, and the final activity
update carries `bot = true` and `botExcutedTime = retry_limit`. -/
theorem c4_fatal_error_aborts (retry_limit : ℕ) (st0 st : BuyLoopState)
    (s1 s2 : List BuyEvent) (e : BuyEvent) (price size : ℚ)
    (hrun : buyRunP retry_limit st0 s1 = (false, st))
    (hrem : st.remaining > 0) (hretry : st.retry < retry_limit)
    (hask : bestAsk e.asks = some (price, size))
    (hmin : ¬ st.remaining < MIN_ORDER_SIZE_USD)
    (hmin2 : ¬ min st.remaining (size * price) < MIN_ORDER_SIZE_USD)
    (hbal : ¬ st.available_balance < min st.remaining (size * price))
    (hfail : respSuccess e.error_msg = false)
    (hfatal : is_insufficient_balance_or_allowance_error e.error_msg = true) :
    buyRun retry_limit st0 (s1 ++ e :: s2) = buyRun retry_limit st0 (s1 ++ [e]) ∧
    (buyRun retry_limit st0 (s1 ++ e :: s2)).postedOrders =
      st.postedOrders ++ [min st.remaining (size * price)] ∧
    (buyRun retry_limit st0 (s1 ++ e :: s2)).abort_due_to_funds = true ∧
    (buyFinalUpdate retry_limit (buyRun retry_limit st0 (s1 ++ e :: s2))).bot = true ∧
    (buyFinalUpdate retry_limit (buyRun retry_limit st0 (s1 ++ e :: s2))).botExecutedTime =
      some retry_limit := by
  have hstep : buyStep st e = .exitLoop
      { st with
        postedOrders := st.postedOrders ++ [min st.remaining (size * price)]
        abort_due_to_funds := true } := by
    unfold buyStep
    rw [hask]
    simp only [if_neg hmin, if_neg hmin2, if_neg hbal, hfail, hfatal,
      Bool.false_eq_true, if_false, if_true]
  have hone : ∀ rest : List BuyEvent,
      buyRunP retry_limit st (e :: rest) =
        (true, { st with
          postedOrders := st.postedOrders ++ [min st.remaining (size * price)]
          abort_due_to_funds := true }) := by
    intro rest
    rw [buyRunP_cons, if_pos ⟨hrem, hretry⟩, hstep]
  have hfull : ∀ rest : List BuyEvent,
      buyRunP retry_limit st0 (s1 ++ e :: rest) =
        (true, { st with
          postedOrders := st.postedOrders ++ [min st.remaining (size * price)]
          abort_due_to_funds := true }) := by
    intro rest
    rw [buyRunP_append, hrun]
    simp only [Bool.false_eq_true, if_false]
    exact hone rest
  have h1 : buyRun retry_limit st0 (s1 ++ e :: s2) =
      { st with
        postedOrders := st.postedOrders ++ [min st.remaining (size * price)]
        abort_due_to_funds := true } := by
    unfold buyRun
    rw [hfull s2]
  have h2 : buyRun retry_limit st0 (s1 ++ [e]) =
      { st with
        postedOrders := st.postedOrders ++ [min st.remaining (size * price)]
        abort_due_to_funds := true } := by
    unfold buyRun
    rw [hfull []]
  refine ⟨h1.trans h2.symm, ?_, ?_, ?_, ?_⟩
  · rw [h1]
  · rw [h1]
  · rfl
  · rw [h1]
    unfold buyFinalUpdate
    simp

/-- Witness for `c4_fatal_error_aborts`: a fresh $10 parent trade, one ask
level `0.5 × 100`, and a response `"Not enough balance / allowance"`;
a second scripted event is never consumed. -/
theorem c4_witness :
    buyRunP 3 (buyInitState 10 100) [] = (false, buyInitState 10 100) ∧
    (buyRun 3 (buyInitState 10 100)
        ([] ++ ⟨[(1 / 2, 100)], some "Not enough balance / allowance".toList⟩ ::
          [⟨[(1 / 2, 100)], none⟩])).abort_due_to_funds = true ∧
    (buyFinalUpdate 3 (buyRun 3 (buyInitState 10 100)
        ([] ++ ⟨[(1 / 2, 100)], some "Not enough balance / allowance".toList⟩ ::
          [⟨[(1 / 2, 100)], none⟩]))).botExecutedTime = some 3 := by
  refine ⟨by decide, ?_, ?_⟩
  · exact (c4_fatal_error_aborts 3 (buyInitState 10 100) (buyInitState 10 100)
      [] [⟨[(1 / 2, 100)], none⟩]
      ⟨[(1 / 2, 100)], some "Not enough balance / allowance".toList⟩
      (1 / 2) 100 (by decide) (by decide) (by decide) (by decide) (by decide)
      (by decide) (by decide) (by decide) (by decide)).2.2.1
  · exact (c4_fatal_error_aborts 3 (buyInitState 10 100) (buyInitState 10 100)
      [] [⟨[(1 / 2, 100)], none⟩]
      ⟨[(1 / 2, 100)], some "Not enough balance / allowance".toList⟩
      (1 / 2) 100 (by decide) (by decide) (by decide) (by decide) (by decide)
      (by decide) (by decide) (by decide) (by decide)).2.2.2.2

end PolyBot

namespace PolyBot

/-! ### The purchase-basis ledger after a sell (C2) -/

theorem foldl_updateById (f : ActivityRow → ℚ) (l : List ActivityRow) :
    ∀ db : List ActivityRow, (l.map (·.id)).Nodup →
      l.foldl (fun acc buy => updateMyBoughtSizeById acc buy.id (f buy)) db =
        db.map (fun r =>
          match l.find? (fun b => b.id == r.id) with
          | some b => { r with my_bought_size := some (f b) }
          | none => r) := by
  induction l with
  | nil =>
    intro db _
    simp [List.find?]
  | cons bb t ih =>
    intro db hnodup
    have hbt : bb.id ∉ t.map (·.id) := by
      have := hnodup
      simp only [List.map_cons, List.nodup_cons] at this
      exact this.1
    have htn : (t.map (·.id)).Nodup := by
      have := hnodup
      simp only [List.map_cons, List.nodup_cons] at this
      exact this.2
    show t.foldl (fun acc buy => updateMyBoughtSizeById acc buy.id (f buy))
        (updateMyBoughtSizeById db bb.id (f bb)) = _
    rw [ih _ htn]
    unfold updateMyBoughtSizeById
    rw [List.map_map]
    apply List.map_congr_left
    intro r _
    by_cases hid : r.id = bb.id
    · have h1 : (if r.id = bb.id then
          { r with my_bought_size := some (f bb) } else r) =
          { r with my_bought_size := some (f bb) } := if_pos hid
      have hfind : t.find? (fun b => b.id == r.id) = none := by
        rw [List.find?_eq_none]
        intro x hx hpx
        apply hbt
        rw [← hid, ← eq_of_beq hpx]
        exact List.mem_map_of_mem (·.id) hx
      have hfind2 : (bb :: t).find? (fun b => b.id == r.id) = some bb :=
        List.find?_cons_of_pos t (by simp [hid])
      simp only [Function.comp_apply, h1, hfind2]
      have hfind' : t.find? (fun b => b.id ==
          ({ r with my_bought_size := some (f bb) } : ActivityRow).id) = none := hfind
      rw [hfind']
    · have h1 : (if r.id = bb.id then
          { r with my_bought_size := some (f bb) } else r) = r := if_neg hid
      have hfind2 : (bb :: t).find? (fun b => b.id == r.id) =
          t.find? (fun b => b.id == r.id) :=
        List.find?_cons_of_neg t (by simp; exact fun h => hid h.symm)
      simp only [Function.comp_apply, h1, hfind2]

theorem row_inj (db : List ActivityRow) (hnodup : (db.map (·.id)).Nodup)
    {x y : ActivityRow} (hx : x ∈ db) (hy : y ∈ db) (hid : x.id = y.id) :
    x = y :=
  List.inj_on_of_nodup_map hnodup hx hy hid

theorem find?_id_of_mem (db : List ActivityRow) (P : ActivityRow → Bool)
    (r : ActivityRow) (hnodup : (db.map (·.id)).Nodup) (hr : r ∈ db)
    (hPr : P r = true) :
    (db.filter P).find? (fun b => b.id == r.id) = some r := by
  have hrmem : r ∈ db.filter P := List.mem_filter.mpr ⟨hr, hPr⟩
  have hsome : ((db.filter P).find? (fun b => b.id == r.id)).isSome = true :=
    List.find?_isSome.mpr ⟨r, hrmem, by simp⟩
  rcases hfind : (db.filter P).find? (fun b => b.id == r.id) with _ | b
  · rw [hfind] at hsome
    simp at hsome
  · have hpb := List.find?_some hfind
    have hbmem := List.mem_of_find?_eq_some hfind
    have hbdb : b ∈ db := (List.mem_filter.mp hbmem).1
    have hbr : b = r := row_inj db hnodup hbdb hr (eq_of_beq hpb)
    rw [hfind, hbr]

theorem mem_ids_iff (db : List ActivityRow) (P : ActivityRow → Bool)
    (r : ActivityRow) (hnodup : (db.map (·.id)).Nodup) (hr : r ∈ db) :
    r.id ∈ (db.filter P).map (·.id) ↔ P r = true := by
  constructor
  · intro hmem
    rcases List.mem_map.mp hmem with ⟨x, hx, hid⟩
    have hxdb : x ∈ db := (List.mem_filter.mp hx).1
    have : x = r := row_inj db hnodup hxdb hr hid
    rw [← this]
    exact (List.mem_filter.mp hx).2
  · intro hPr
    exact List.mem_map_of_mem (·.id) (List.mem_filter.mpr ⟨hr, hPr⟩)

theorem buyFilter_isSome {asset : Str} {cond : Option Str} {r : ActivityRow}
    (h : buyFilter asset cond r = true) : r.my_bought_size.isSome = true := by
  unfold buyFilter at h
  rcases hm : r.my_bought_size with _ | q
  · rw [hm] at h
    simp at h
  · rfl

theorem filterMap_mbs_eq_map_getD (l : List ActivityRow)
    (h : ∀ r ∈ l, r.my_bought_size.isSome = true) :
    (l.filterMap (·.my_bought_size)).sum =
      (l.map fun r => r.my_bought_size.getD 0).sum := by
  induction l with
  | nil => rfl
  | cons a t ih =>
    have ha := h a (List.mem_cons_self a t)
    rcases hm : a.my_bought_size with _ | q
    · rw [hm] at ha
      simp at ha
    · simp only [List.filterMap_cons, hm, List.map_cons, List.sum_cons,
        Option.getD_some]
      rw [ih (fun r hr => h r (List.mem_cons_of_mem a hr))]

end PolyBot

namespace PolyBot

theorem id_mem_ids_decide (db : List ActivityRow) (P : ActivityRow → Bool)
    (hnodup : (db.map (·.id)).Nodup) :
    ∀ r ∈ db, decide (r.id ∈ (db.filter P).map (·.id)) = P r := by
  intro r hr
  by_cases hPr : P r = true
  · rw [hPr, decide_eq_true ((mem_ids_iff db P r hnodup hr).mpr hPr)]
  · have hnot : r.id ∉ (db.filter P).map (·.id) :=
      fun hmem => hPr ((mem_ids_iff db P r hnodup hr).mp hmem)
    rw [decide_eq_false hnot, Bool.eq_false_iff.mpr hPr]

/-- The sum of `my_bought_size` over the originally matching ids, after an
id-preserving rewrite `g` of the whole table whose value on matching rows
is `some (v r)`. -/
theorem sumOverIds_map (db : List ActivityRow) (P : ActivityRow → Bool)
    (g : ActivityRow → ActivityRow) (v : ActivityRow → ℚ)
    (hnodup : (db.map (·.id)).Nodup)
    (hgid : ∀ r, (g r).id = r.id)
    (hgval : ∀ r ∈ db.filter P, (g r).my_bought_size = some (v r)) :
    sumOverIds (db.map g) ((db.filter P).map (·.id)) =
      ((db.filter P).map v).sum := by
  unfold sumOverIds
  rw [List.filter_map, List.map_map]
  have hpred : ∀ r ∈ db,
      ((fun r : ActivityRow => decide (r.id ∈ (db.filter P).map (·.id))) ∘ g) r =
        P r := by
    intro r hr
    have : decide ((g r).id ∈ (db.filter P).map (·.id)) =
        decide (r.id ∈ (db.filter P).map (·.id)) := by rw [hgid r]
    calc ((fun r : ActivityRow => decide (r.id ∈ (db.filter P).map (·.id))) ∘ g) r
        = decide ((g r).id ∈ (db.filter P).map (·.id)) := rfl
      _ = decide (r.id ∈ (db.filter P).map (·.id)) := this
      _ = P r := id_mem_ids_decide db P hnodup r hr
  rw [List.filter_congr hpred]
  have hvals : ∀ r ∈ db.filter P,
      ((fun r : ActivityRow => r.my_bought_size.getD 0) ∘ g) r = v r := by
    intro r hrf
    show (g r).my_bought_size.getD 0 = v r
    rw [hgval r hrf]
    rfl
  rw [List.map_congr_left hvals]

/-- C2 (confirmed): after a sell of `s` tokens against a tracked basis
`b = basisSum db asset cond > 0` (with `s > 0` and distinct row ids), the
sum of `my_bought_size` over the originally matching BUY rows equals
`b × (1 − s/b)`; and when `s/b ≥ 0.99` every matching row's
`my_bought_size` is set to exactly 0. -/
theorem c2_sell_basis_update (db : List ActivityRow) (asset : Str)
    (cond : Option Str) (total_sold_tokens : ℚ)
    (hnodup : (db.map (·.id)).Nodup)
    (hs : 0 < total_sold_tokens)
    (hb : 0 < basisSum db asset cond) :
    sumOverIds (sellLedgerUpdate db asset cond total_sold_tokens)
        ((db.filter (buyFilter asset cond)).map (·.id)) =
      (if total_sold_tokens / basisSum db asset cond ≥ 99 / 100 then 0
       else basisSum db asset cond *
         (1 - total_sold_tokens / basisSum db asset cond)) ∧
    (total_sold_tokens / basisSum db asset cond ≥ 99 / 100 →
      ∀ r ∈ sellLedgerUpdate db asset cond total_sold_tokens,
        r.id ∈ (db.filter (buyFilter asset cond)).map (·.id) →
          r.my_bought_size = some 0) := by
  by_cases hpct : total_sold_tokens / basisSum db asset cond ≥ 99 / 100
  · -- ≥ 0.99 : update_many_activities sets every matching row to 0
    have hupd : sellLedgerUpdate db asset cond total_sold_tokens =
        db.map (fun r => if buyFilter asset cond r then
          { r with my_bought_size := some 0 } else r) := by
      simp only [sellLedgerUpdate]
      have hfold : ((db.filter (buyFilter asset cond)).filterMap
          fun x => x.my_bought_size).sum = basisSum db asset cond := rfl
      rw [hfold, if_pos ⟨hs, hb⟩, if_pos hpct]
    have hgid : ∀ r : ActivityRow,
        ((if buyFilter asset cond r then
          ({ r with my_bought_size := some 0 } : ActivityRow) else r)).id = r.id := by
      intro r
      split <;> rfl
    constructor
    · rw [if_pos hpct, hupd]
      rw [sumOverIds_map db (buyFilter asset cond) _ (fun _ => 0) hnodup hgid
        (by
          intro r hrf
          have hPr := (List.mem_filter.mp hrf).2
          show (if buyFilter asset cond r then
            ({ r with my_bought_size := some 0 } : ActivityRow) else r).my_bought_size =
            some 0
          rw [if_pos hPr])]
      apply List.sum_eq_zero
      intro x hx
      rcases List.mem_map.mp hx with ⟨r, _, rfl⟩
      rfl
    · intro _ r hrmem hid
      rw [hupd] at hrmem
      rcases List.mem_map.mp hrmem with ⟨r0, hr0, rfl⟩
      rw [hgid r0] at hid
      have hP0 : buyFilter asset cond r0 = true :=
        (mem_ids_iff db _ r0 hnodup hr0).mp hid
      simp [hP0]
  · -- < 0.99 : each matching row is scaled by (1 − s/b)
    have hfnodup : ((db.filter (buyFilter asset cond)).map (·.id)).Nodup :=
      List.Nodup.sublist (List.Sublist.map _ (List.filter_sublist db)) hnodup
    have hupd : sellLedgerUpdate db asset cond total_sold_tokens =
        db.map (fun r =>
          match (db.filter (buyFilter asset cond)).find? (fun b' => b'.id == r.id) with
          | some b' => { r with my_bought_size := some (b'.my_bought_size.getD 0 * (1 - total_sold_tokens / basisSum db asset cond)) }
          | none => r) := by
      simp only [sellLedgerUpdate]
      have hfold : ((db.filter (buyFilter asset cond)).filterMap
          fun x => x.my_bought_size).sum = basisSum db asset cond := rfl
      rw [hfold, if_pos ⟨hs, hb⟩, if_neg hpct]
      exact foldl_updateById
        (fun buy => buy.my_bought_size.getD 0 *
          (1 - total_sold_tokens / basisSum db asset cond))
        (db.filter (buyFilter asset cond)) db hfnodup
    constructor
    · rw [if_neg hpct, hupd]
      rw [sumOverIds_map db (buyFilter asset cond) _
        (fun r => r.my_bought_size.getD 0 *
          (1 - total_sold_tokens / basisSum db asset cond)) hnodup
        (by
          intro r
          rcases hfind : (db.filter (buyFilter asset cond)).find?
            (fun b' => b'.id == r.id) with _ | b'
          · rw [hfind]
          · rw [hfind])
        (by
          intro r hrf
          rw [find?_id_of_mem db (buyFilter asset cond) r hnodup
            (List.mem_filter.mp hrf).1 (List.mem_filter.mp hrf).2])]
      rw [List.sum_map_mul_right]
      have hsum : ((db.filter (buyFilter asset cond)).map
          fun r => r.my_bought_size.getD 0).sum = basisSum db asset cond := by
        unfold basisSum
        exact (filterMap_mbs_eq_map_getD _
          (fun r hr => buyFilter_isSome (List.mem_filter.mp hr).2)).symm
      rw [hsum]
    · intro hpct'
      exact absurd hpct' hpct

/-- Witness for `c2_sell_basis_update`: two tracked BUY rows of 60 and 40
tokens, 18 tokens sold: 18% of the basis, each row scales by 0.82 and the
tracked sum becomes 82. -/
theorem c2_witness :
    (([⟨1, "a".toList, none, .buy, true, some 60⟩,
        ⟨2, "a".toList, none, .buy, true, some 40⟩] :
          List ActivityRow).map (·.id)).Nodup ∧
    (0 : ℚ) < 18 ∧
    0 < basisSum [⟨1, "a".toList, none, .buy, true, some 60⟩,
        ⟨2, "a".toList, none, .buy, true, some 40⟩] "a".toList none ∧
    sumOverIds (sellLedgerUpdate [⟨1, "a".toList, none, .buy, true, some 60⟩,
        ⟨2, "a".toList, none, .buy, true, some 40⟩] "a".toList none 18)
        ((([⟨1, "a".toList, none, .buy, true, some 60⟩,
           ⟨2, "a".toList, none, .buy, true, some 40⟩] :
            List ActivityRow).filter (buyFilter "a".toList none)).map (·.id)) =
      (if (18 : ℚ) / basisSum [⟨1, "a".toList, none, .buy, true, some 60⟩,
          ⟨2, "a".toList, none, .buy, true, some 40⟩] "a".toList none ≥ 99 / 100
       then 0
       else basisSum [⟨1, "a".toList, none, .buy, true, some 60⟩,
          ⟨2, "a".toList, none, .buy, true, some 40⟩] "a".toList none *
         (1 - 18 / basisSum [⟨1, "a".toList, none, .buy, true, some 60⟩,
          ⟨2, "a".toList, none, .buy, true, some 40⟩] "a".toList none)) := by
  refine ⟨by decide, by decide, by decide, ?_⟩
  exact (c2_sell_basis_update
    [⟨1, "a".toList, none, .buy, true, some 60⟩,
     ⟨2, "a".toList, none, .buy, true, some 40⟩]
    "a".toList none 18 (by decide) (by decide) (by decide)).1

end PolyBot

namespace PolyBot

/-! ### Activity ingestion: uniqueness per (wallet, tx-hash) (C9) -/

theorem insert_preserves_inv (db : List StoredActivity) (activity : RtdsActivity)
    (address : Str) (hinv : IngestInv db)
    (hne : ¬(activity.transaction_hash.getD []).isEmpty = true)
    (hfind : ¬(find_activity_by_tx db address
      (activity.transaction_hash.getD [])).isSome = true) :
    IngestInv (db ++
      [{ collectionKey := "user_activities_".toList ++ address.map Char.toLower
         transaction_hash := activity.transaction_hash }]) := by
  have hfind' : find_activity_by_tx db address
      (activity.transaction_hash.getD []) = none :=
    Option.not_isSome_iff_eq_none.mp hfind
  have hnotin : ∀ r ∈ db,
      ¬(r.collectionKey = "user_activities_".toList ++ address.map Char.toLower ∧
        r.transaction_hash = some (activity.transaction_hash.getD [])) := by
    intro r hr hcontra
    have hfilter : r ∈ db.filter fun r =>
        r.collectionKey == "user_activities_".toList ++ address.map Char.toLower &&
          r.transaction_hash == some (activity.transaction_hash.getD []) := by
      rw [List.mem_filter]
      refine ⟨hr, ?_⟩
      rw [Bool.and_eq_true, beq_iff_eq, beq_iff_eq]
      exact hcontra
    unfold find_activity_by_tx at hfind'
    rcases hhead : (db.filter fun r =>
        r.collectionKey == "user_activities_".toList ++ address.map Char.toLower &&
          r.transaction_hash == some (activity.transaction_hash.getD []))
      with _ | ⟨a, t⟩
    · rw [hhead] at hfilter
      simp at hfilter
    · rw [hhead] at hfind'
      simp at hfind'
  have hsome : activity.transaction_hash =
      some (activity.transaction_hash.getD []) := by
    rcases htx : activity.transaction_hash with _ | tx
    · rw [htx] at hne
      exact absurd rfl hne
    · rfl
  constructor
  · show (List.map (fun r => (r.collectionKey, r.transaction_hash)) (db ++
      [{ collectionKey := "user_activities_".toList ++ address.map Char.toLower
         transaction_hash := activity.transaction_hash }])).Nodup
    rw [List.map_append, List.nodup_append]
    refine ⟨hinv.1, List.nodup_singleton _, ?_⟩
    intro p hp hq
    simp only [List.map_cons, List.map_nil, List.mem_singleton] at hq
    rcases List.mem_map.mp hp with ⟨r, hr, rfl⟩
    apply hnotin r hr
    have h1 := congrArg Prod.fst hq
    have h2 := congrArg Prod.snd hq
    dsimp at h1 h2
    exact ⟨h1, by rw [h2, ← hsome]⟩
  · intro r hr
    rcases List.mem_append.mp hr with hl | hnew
    · exact hinv.2 r hl
    · simp only [List.mem_singleton] at hnew
      subst hnew
      show storedOk _ = true
      unfold storedOk
      rw [hsome]
      simp only
      rw [Bool.not_eq_true']
      exact Bool.eq_false_iff.mpr hne

theorem process_preserves_inv (now_ms : ℤ) (hrs : ℕ) (db : List StoredActivity)
    (activity : RtdsActivity) (address : Str) (hinv : IngestInv db) :
    IngestInv (process_trade_activity now_ms hrs db activity address) := by
  simp only [process_trade_activity]
  split <;> split
  any_goals exact hinv
  all_goals split
  any_goals exact hinv
  all_goals split
  any_goals exact hinv
  all_goals rename_i hstale hne hdup
  all_goals exact insert_preserves_inv db activity address hinv hne hdup

/-- C9 (confirmed): starting from a database satisfying the ingestion
invariant (at most one row per `(wallet, transaction_hash)`, no empty
hashes), processing any stream of incoming activity payloads preserves
it: at most one row is ever inserted per pair, and a payload with an
empty `transaction_hash` is never inserted. -/
theorem c9_ingestion_unique (hrs : ℕ) (db : List StoredActivity)
    (events : List (ℤ × RtdsActivity × Str)) (hinv : IngestInv db) :
    IngestInv (processStream hrs db events) := by
  induction events generalizing db with
  | nil => exact hinv
  | cons e es ih =>
    exact ih _ (process_preserves_inv e.1 hrs db e.2.1 e.2.2 hinv)

/-- Witness for `c9_ingestion_unique`: the empty database and a stream
that replays the same transaction hash twice (plus an empty-hash
payload); the invariant holds afterwards. -/
theorem c9_witness :
    IngestInv [] ∧
    IngestInv (processStream 24 []
      [(1000, ⟨some 1, some "0xabc".toList⟩, "0xW".toList),
       (1000, ⟨some 1, some "0xabc".toList⟩, "0xW".toList),
       (1000, ⟨some 1, some ([] : Str)⟩, "0xW".toList)]) := by
  exact ⟨⟨List.nodup_nil, by simp⟩,
    c9_ingestion_unique 24 []
      [(1000, ⟨some 1, some "0xabc".toList⟩, "0xW".toList),
       (1000, ⟨some 1, some "0xabc".toList⟩, "0xW".toList),
       (1000, ⟨some 1, some ([] : Str)⟩, "0xW".toList)]
      ⟨List.nodup_nil, by simp⟩⟩

end PolyBot
